import Mathlib

/-!
CLES ESP32 firmware configuration

A shallow embedding of `cles/esp32-firmware/config.h`.  The header holds only
compile-time constants; each C constant becomes a Lean constant of the matching
type (`const int` is an `Int`, `const unsigned long` a `Nat` below `2 ^ 32`,
`const char*` a `String`, `const bool` a `Bool`).

The signal-processing loop these constants configure (peak detector, interval
buffer) is not part of the header.  Its two components are modelled from the
prose specification, parameterised by the constants of the header.
-/

namespace CLES

/-! ## Constants of `config.h` -/

/-- Width in bits of `int` and `unsigned long` on the ESP32 target. -/
def WORD_BITS : Nat := 32

/-- Network name, `const char* ssid`. -/
def ssid : String := "YOUR_WIFI_NETWORK_NAME"

/-- Network password, `const char* password`. -/
def password : String := "YOUR_WIFI_PASSWORD"

/-- Ingestion endpoint, `const char* serverURL`. -/
def serverURL : String := "http://192.168.1.100:3000/api/ingest/hr"

/-- GPIO pin connected to SEN-11574 OUT, `const int PULSE_PIN`. -/
def PULSE_PIN : Int := 34

/-- Built-in LED pin for status, `const int LED_PIN`. -/
def LED_PIN : Int := 2

/-- ADC threshold for peak detection, `const int PEAK_THRESHOLD`. -/
def PEAK_THRESHOLD : Int := 2000

/-- Minimum ms between valid peaks, `const int REFRACTORY_PERIOD`. -/
def REFRACTORY_PERIOD : Int := 250

/-- Sampling frequency in Hz, `const int SAMPLE_RATE`. -/
def SAMPLE_RATE : Int := 100

/-- Samples for signal processing, `const int BUFFER_SIZE`. -/
def BUFFER_SIZE : Int := 200

/-- Check WiFi every 30s, `const unsigned long WIFI_CHECK_INTERVAL`. -/
def WIFI_CHECK_INTERVAL : Nat := 30000

/-- Send data every 1s, `const unsigned long TRANSMISSION_INTERVAL`. -/
def TRANSMISSION_INTERVAL : Nat := 1000

/-- Enable detailed serial output, `const bool DEBUG_MODE`. -/
def DEBUG_MODE : Bool := true

/-- Use LED for status indication, `const bool LED_STATUS`. -/
def LED_STATUS : Bool := true

/-- Modelled from the spec: the largest ADC reading.  `config.h` does not define
the ADC range; the specification's data model gives it as 0-4095. -/
def ADC_MAX : Int := 4095

/-- A value fits the target's signed `int`. -/
def fitsInt (v : Int) : Prop := -(2 ^ (WORD_BITS - 1) : Int) ≤ v ∧ v < (2 ^ (WORD_BITS - 1) : Int)

/-- A value fits the target's `unsigned long`. -/
def fitsULong (v : Nat) : Prop := v < 2 ^ WORD_BITS

instance (v : Int) : Decidable (fitsInt v) := by unfold fitsInt; infer_instance

instance (v : Nat) : Decidable (fitsULong v) := by unfold fitsULong; infer_instance

/-- Sampling period in ms derived from `SAMPLE_RATE` by C integer division. -/
def SAMPLE_PERIOD_MS : Int := 1000 / SAMPLE_RATE

/-- Text of `s` left after removing `pre.length` leading and `suf.length`
trailing characters. -/
def between (pre suf s : String) : List Char :=
  (s.data.drop pre.length).take (s.length - pre.length - suf.length)

/-! ## Peak detector (specification section 4.1) -/

/-- Modelled from the spec: a Sample, a timestamped integer reading from the
analog input.  `t` is the time of the sampling tick in ms, `value` the ADC
reading.  The sampling code is not part of `config.h`. -/
structure Sample where
  t : Nat
  value : Int
  deriving DecidableEq

/-- Modelled from the spec: the three states of the peak detector, IDLE (below
threshold), ARMED (above threshold, eligible to register a peak) and REFRACTORY
(peak just registered, suppressing further detections).  The detector is not
implemented in `config.h`, which only supplies `PEAK_THRESHOLD` and
`REFRACTORY_PERIOD`. -/
inductive DetectorState where
  | IDLE
  | ARMED
  | REFRACTORY
  deriving DecidableEq

/-- Modelled from the spec: the memory of the peak detector (absent from
`config.h`), its state and the timestamp of the last registered peak, which is
read only while REFRACTORY. -/
structure Detector where
  state : DetectorState
  lastPeak : Nat
  deriving DecidableEq

/-- Modelled from the spec: the peak detector (absent from `config.h`) before the
first sample, IDLE with no peak registered. -/
def Detector.init : Detector := ⟨.IDLE, 0⟩

/-- Modelled from the spec: transition REFRACTORY to IDLE of the peak detector
(absent from `config.h`), taken when the elapsed time since the last peak is at
least `REFRACTORY_PERIOD`. -/
def leaveRefractory (d : Detector) (s : Sample) : Detector :=
  if d.state = .REFRACTORY ∧ REFRACTORY_PERIOD ≤ (s.t : Int) - (d.lastPeak : Int) then
    { d with state := .IDLE }
  else d

/-- Modelled from the spec: transition IDLE to ARMED of the peak detector (absent
from `config.h`), taken when the sample is at least `PEAK_THRESHOLD`. -/
def arm (d : Detector) (s : Sample) : Detector :=
  if d.state = .IDLE ∧ PEAK_THRESHOLD ≤ s.value then { d with state := .ARMED } else d

/-- Modelled from the spec: transition ARMED to REFRACTORY of the peak detector
(absent from `config.h`), which records a Peak Event carrying the timestamp of
detection.  The interval pushed into the Interval Buffer on the same transition
does not feed back into the detector and is left to `IntervalBuffer.push`. -/
def fire (d : Detector) (s : Sample) : Detector × Option Nat :=
  if d.state = .ARMED then (⟨.REFRACTORY, s.t⟩, some s.t) else (d, none)

/-- Modelled from the spec: one sampling tick of the peak detector (absent from
`config.h`).  The sample is offered to the three transitions in turn, so a
crossing sample is registered with its own timestamp and the refractory timer is
the only gate between two peaks. -/
def step (d : Detector) (s : Sample) : Detector × Option Nat :=
  fire (arm (leaveRefractory d s) s) s

/-- Modelled from the spec: the Peak Events the peak detector (absent from
`config.h`) emits while consuming a sample sequence from state `d`, oldest
first. -/
def run : Detector → List Sample → List Nat
  | _, [] => []
  | d, s :: rest => (step d s).2.toList ++ run (step d s).1 rest

/-- Modelled from the spec: timestamps of the peaks the peak detector (absent
from `config.h`) registers on a sample sequence, starting from its initial
state. -/
def detectPeaks (samples : List Sample) : List Nat := run Detector.init samples

/-- A 10 ms sample stream over 0..400 ms that reaches the threshold only at
t = 0, t = 100 and t = 400. -/
def scenarioStream : List Sample :=
  (List.range 41).map fun i => ⟨10 * i, if i = 0 ∨ i = 10 ∨ i = 40 then 2000 else 0⟩

/-! ## Interval buffer (specification section 4.2) -/

/-- Modelled from the spec: the Interval Buffer, a fixed-capacity ring buffer.
`slots` is the storage (its length is the capacity), `head` the index of the
oldest entry and `count` the number of entries held.  The buffer code is not
part of `config.h`, which only supplies the capacity `BUFFER_SIZE`. -/
structure IntervalBuffer where
  slots : List Nat
  head : Nat
  count : Nat
  deriving DecidableEq

namespace IntervalBuffer

/-- Modelled from the spec: capacity of the Interval Buffer (absent from
`config.h`). -/
def capacity (b : IntervalBuffer) : Nat := b.slots.length

/-- Modelled from the spec: the empty Interval Buffer (absent from `config.h`) of
capacity `cap`. -/
def empty (cap : Nat) : IntervalBuffer := ⟨List.replicate cap 0, 0, 0⟩

/-- Modelled from the spec: push of the Interval Buffer (absent from `config.h`).
The new interval is stored behind the newest entry; when the buffer is full it
overwrites the oldest entry and `head` advances with index wraparound. -/
def push (b : IntervalBuffer) (x : Nat) : IntervalBuffer :=
  if b.count < b.capacity then
    { b with slots := b.slots.set ((b.head + b.count) % b.capacity) x, count := b.count + 1 }
  else
    { b with slots := b.slots.set b.head x, head := (b.head + 1) % b.capacity }

/-- Modelled from the spec: the entries the Interval Buffer (absent from
`config.h`) holds, in insertion order, oldest first. -/
def contents (b : IntervalBuffer) : List Nat :=
  (List.range b.count).map fun i => b.slots.getD ((b.head + i) % b.capacity) 0

/-- Modelled from the spec: a sequence of pushes into the Interval Buffer (absent
from `config.h`), applied left to right. -/
def pushAll (b : IntervalBuffer) (xs : List Nat) : IntervalBuffer := xs.foldl push b

/-- Shape invariant of a ring of capacity `cap`. -/
def WF (cap : Nat) (b : IntervalBuffer) : Prop :=
  b.slots.length = cap ∧ b.head < cap ∧ b.count ≤ cap

end IntervalBuffer

/-- Sequence-level view of one push into a buffer of capacity `cap`: append while
there is room, otherwise drop the oldest entry and append. -/
def fifoPush (cap : Nat) (l : List Nat) (x : Nat) : List Nat :=
  if l.length < cap then l ++ [x] else l.tail ++ [x]

/-! ## Lemmas on the peak detector -/

open IntervalBuffer

theorem step_cases (d : Detector) (s : Sample) :
    (step d s = (d, none) ∧ d.state = .REFRACTORY ∧ ¬ REFRACTORY_PERIOD ≤ (s.t : Int) - (d.lastPeak : Int)) ∨
    (step d s = (⟨.IDLE, d.lastPeak⟩, none) ∧ d.state ≠ .ARMED ∧
      (d.state = .REFRACTORY → REFRACTORY_PERIOD ≤ (s.t : Int) - (d.lastPeak : Int))) ∨
    (step d s = (⟨.REFRACTORY, s.t⟩, some s.t) ∧
      (d.state = .REFRACTORY → REFRACTORY_PERIOD ≤ (s.t : Int) - (d.lastPeak : Int))) := by
  obtain ⟨st, lp⟩ := d
  cases st <;> simp only [step, fire, arm, leaveRefractory] <;> split_ifs <;> simp_all

theorem run_spaced (ss : List Sample) :
    ∀ d : Detector, ss.Pairwise (fun a b => a.t ≤ b.t) →
      (run d ss).Pairwise (fun (p q : Nat) => (p : Int) + REFRACTORY_PERIOD ≤ (q : Int)) ∧
      ∀ p ∈ run d ss, (∃ s ∈ ss, p = s.t) ∧
        (d.state = .REFRACTORY → (d.lastPeak : Int) + REFRACTORY_PERIOD ≤ p) := by
  induction ss with
  | nil => intro d _; simp [run]
  | cons s rest ih =>
    intro d hs
    rw [List.pairwise_cons] at hs
    obtain ⟨hhead, htail⟩ := hs
    rcases step_cases d s with ⟨he, hst, hlt⟩ | ⟨he, _, hge⟩ | ⟨he, hge⟩
    · have := ih d htail
      simp only [run, he, Option.toList, List.nil_append]
      refine ⟨this.1, fun p hp => ⟨?_, (this.2 p hp).2⟩⟩
      obtain ⟨s', hs', rfl⟩ := (this.2 p hp).1
      exact ⟨s', List.mem_cons_of_mem _ hs', rfl⟩
    · have := ih ⟨.IDLE, d.lastPeak⟩ htail
      simp only [run, he, Option.toList, List.nil_append]
      refine ⟨this.1, fun p hp => ?_⟩
      obtain ⟨s', hs', rfl⟩ := (this.2 p hp).1
      refine ⟨⟨s', List.mem_cons_of_mem _ hs', rfl⟩, fun hr => ?_⟩
      have h1 := hge hr
      have h2 := hhead s' hs'
      omega
    · have := ih ⟨.REFRACTORY, s.t⟩ htail
      simp only [run, he, Option.toList, List.singleton_append]
      refine ⟨List.pairwise_cons.mpr ⟨fun q hq => (this.2 q hq).2 rfl, this.1⟩, fun p hp => ?_⟩
      rcases List.mem_cons.mp hp with rfl | hp
      · exact ⟨⟨s, List.mem_cons_self _ _, rfl⟩, fun hr => by have := hge hr; omega⟩
      · obtain ⟨s', hs', rfl⟩ := (this.2 p hp).1
        refine ⟨⟨s', List.mem_cons_of_mem _ hs', rfl⟩, fun hr => ?_⟩
        have h1 := hge hr
        have h2 := hhead s' hs'
        omega
/-! ## Lemmas on the interval buffer -/

theorem ring_index_inj {cap h i j : Nat} (hi : i < cap) (hj : j < cap)
    (hij : (h + i) % cap = (h + j) % cap) : i = j := by
  have h1 : i % cap = j % cap := Nat.ModEq.add_left_cancel' h hij
  rwa [Nat.mod_eq_of_lt hi, Nat.mod_eq_of_lt hj] at h1

theorem wf_empty {cap : Nat} (hcap : 0 < cap) : WF cap (empty cap) := by
  simp [WF, empty, hcap]

theorem wf_push {cap : Nat} (hcap : 0 < cap) {b : IntervalBuffer} (hb : WF cap b) (x : Nat) :
    WF cap (push b x) := by
  obtain ⟨hl, hh, hc⟩ := hb
  unfold push
  split_ifs with hlt
  · simp only [capacity] at hlt
    exact ⟨by simp [hl], hh, by simp only; omega⟩
  · exact ⟨by simp [hl], by simp only [capacity, hl]; exact Nat.mod_lt _ hcap, hc⟩

theorem length_contents (b : IntervalBuffer) : (contents b).length = b.count := by
  simp [contents]

theorem push_of_lt {b : IntervalBuffer} (h : b.count < b.slots.length) (x : Nat) :
    push b x =
      ⟨b.slots.set ((b.head + b.count) % b.slots.length) x, b.head, b.count + 1⟩ := by
  simp [push, capacity, h]

theorem push_of_full {b : IntervalBuffer} (h : ¬ b.count < b.slots.length) (x : Nat) :
    push b x = ⟨b.slots.set b.head x, (b.head + 1) % b.slots.length, b.count⟩ := by
  simp [push, capacity, h]

theorem contents_push_of_lt {cap : Nat} {b : IntervalBuffer} (hb : WF cap b)
    (hlt : b.count < cap) (x : Nat) : contents (push b x) = contents b ++ [x] := by
  obtain ⟨hl, hh, hc⟩ := hb
  rw [push_of_lt (by omega)]
  simp only [contents, capacity, List.length_set, hl, List.range_succ,
    List.map_append, List.map_cons, List.map_nil]
  congr 1
  · apply List.map_congr_left
    intro i hi
    have hi' : i < b.count := List.mem_range.mp hi
    have hne : (b.head + b.count) % cap ≠ (b.head + i) % cap := fun h =>
      absurd (ring_index_inj hlt (by omega) h) (by omega)
    simp [List.getD_eq_getElem?_getD, List.getElem?_set_ne hne]
  · have hidx : (b.head + b.count) % cap < b.slots.length := by
      rw [hl]; exact Nat.mod_lt _ (by omega)
    simp [List.getD_eq_getElem?_getD, hidx]

theorem contents_push_of_full {cap : Nat} (hcap : 0 < cap) {b : IntervalBuffer} (hb : WF cap b)
    (hfull : b.count = cap) (x : Nat) : contents (push b x) = (contents b).tail ++ [x] := by
  obtain ⟨hl, hh, hc⟩ := hb
  rw [push_of_full (by omega)]
  simp only [contents, capacity, List.length_set, hl, hfull]
  apply List.ext_getElem
  · simp; omega
  · intro i h1 h2
    simp only [List.length_map, List.length_range] at h1
    simp only [List.getElem_map, List.getElem_range, Nat.mod_add_mod]
    by_cases hi : i + 1 < cap
    · have hne : b.head ≠ (b.head + (i + 1)) % cap := fun h => by
        have h0 : (b.head + 0) % cap = (b.head + (i + 1)) % cap := by
          rw [Nat.add_zero, Nat.mod_eq_of_lt hh]; exact h
        have := ring_index_inj hcap hi h0
        omega
      rw [List.getElem_append_left (by simp; omega)]
      simp [List.getD_eq_getElem?_getD, List.getElem?_set_ne hne, Nat.add_assoc, Nat.add_comm 1 i]
    · have hidx : (b.head + 1 + i) % cap = b.head := by
        have : b.head + 1 + i = b.head + cap := by omega
        rw [this, Nat.add_mod_right, Nat.mod_eq_of_lt hh]
      rw [List.getElem_append_right (by simp; omega)]
      simp [List.getD_eq_getElem?_getD, hidx, hl, hh]

theorem contents_push {cap : Nat} (hcap : 0 < cap) {b : IntervalBuffer} (hb : WF cap b)
    (x : Nat) : contents (push b x) = fifoPush cap (contents b) x := by
  unfold fifoPush
  rw [length_contents]
  split_ifs with h
  · exact contents_push_of_lt hb h x
  · exact contents_push_of_full hcap hb (by have := hb.2.2; omega) x

theorem wf_pushAll {cap : Nat} (hcap : 0 < cap) (xs : List Nat) :
    ∀ {b : IntervalBuffer}, WF cap b → WF cap (pushAll b xs) := by
  induction xs with
  | nil => intro b hb; exact hb
  | cons x xs ih => intro b hb; exact ih (wf_push hcap hb x)

theorem pushAll_append (b : IntervalBuffer) (xs ys : List Nat) :
    pushAll b (xs ++ ys) = pushAll (pushAll b xs) ys := by
  simp [pushAll, List.foldl_append]

theorem fifoPush_suffix {cap : Nat} (hcap : 0 < cap) (l : List Nat) (x : Nat) :
    fifoPush cap (l.drop (l.length - cap)) x = (l ++ [x]).drop ((l ++ [x]).length - cap) := by
  unfold fifoPush
  simp only [List.length_drop, List.length_append, List.length_singleton]
  split_ifs with h
  · have h1 : l.length - cap = 0 := by omega
    have h2 : l.length + 1 - cap = 0 := by omega
    simp [h1, h2]
  · have h2 : l.length + 1 - cap = (l.length - cap) + 1 := by omega
    have h3 : l.length - cap + 1 ≤ l.length := by omega
    rw [h2, List.tail_drop, List.drop_append_of_le_length h3]

/-- After any pushes into an empty ring the contents are the last `cap` values pushed. -/
theorem contents_pushAll_empty {cap : Nat} (hcap : 0 < cap) (xs : List Nat) :
    contents (pushAll (empty cap) xs) = xs.drop (xs.length - cap) := by
  induction xs using List.reverseRecOn with
  | nil => simp [pushAll, contents, empty]
  | append_singleton xs x ih =>
    rw [pushAll_append]
    show contents (push (pushAll (empty cap) xs) x) = _
    rw [contents_push hcap (wf_pushAll hcap xs (wf_empty hcap)), ih, fifoPush_suffix hcap]

/-! ## Theorems about the constants -/

/-- C1: the refractory period configured in `config.h` is 250 ms, the value the
specification gives for the REFRACTORY to IDLE transition. -/
theorem refractory_period_value : REFRACTORY_PERIOD = 250 ∧ fitsInt REFRACTORY_PERIOD := by
  decide

/-- C2: the peak threshold is 2000 and lies in the ADC range 0..4095, and the
range holds a sample that reaches the threshold and a sample below it. -/
theorem peak_threshold_in_adc_range :
    PEAK_THRESHOLD = 2000 ∧ 0 ≤ PEAK_THRESHOLD ∧ PEAK_THRESHOLD ≤ ADC_MAX ∧
    (∃ s1 : Int, 0 ≤ s1 ∧ s1 ≤ ADC_MAX ∧ PEAK_THRESHOLD ≤ s1) ∧
    (∃ s2 : Int, 0 ≤ s2 ∧ s2 ≤ ADC_MAX ∧ s2 < PEAK_THRESHOLD) := by
  refine ⟨by decide, by decide, by decide, ⟨ADC_MAX, by decide, by decide, by decide⟩,
    ⟨0, by decide, by decide, by decide⟩⟩

/-- C3: the ring-buffer capacity configured in `config.h` is 200, hence strictly
positive. -/
theorem buffer_size_value : BUFFER_SIZE = 200 ∧ 0 < BUFFER_SIZE := by
  decide

/-- C4: the transmission period is 1000 ms and the connectivity-check period is
30000 ms; both are non-zero values of the unsigned type, and the check period is
strictly longer than the transmission period. -/
theorem scheduler_periods :
    TRANSMISSION_INTERVAL = 1000 ∧ WIFI_CHECK_INTERVAL = 30000 ∧
    fitsULong TRANSMISSION_INTERVAL ∧ fitsULong WIFI_CHECK_INTERVAL ∧
    0 < TRANSMISSION_INTERVAL ∧ 0 < WIFI_CHECK_INTERVAL ∧
    TRANSMISSION_INTERVAL < WIFI_CHECK_INTERVAL := by
  decide

/-- C6: the pulse sensor is read on GPIO 34, the status LED is driven on GPIO 2,
and the two pins differ. -/
theorem pin_assignment : PULSE_PIN = 34 ∧ LED_PIN = 2 ∧ PULSE_PIN ≠ LED_PIN := by
  decide

/-- C5: `serverURL` has the shape `http://<host>:<port>/api/ingest/hr`: it starts
with "http://", ends with "/api/ingest/hr", and the text between is the host
192.168.1.100, one ':' and the port 3000, where the host is non-empty and holds no
':' and the port is non-empty and all digits. -/
theorem serverURL_shape :
    "http://".data <+: serverURL.data ∧ "/api/ingest/hr".data <:+ serverURL.data ∧
    ∃ host port : String,
      host = "192.168.1.100" ∧ port = "3000" ∧
      serverURL = "http://" ++ host ++ ":" ++ port ++ "/api/ingest/hr" ∧
      between "http://" "/api/ingest/hr" serverURL = host.data ++ [':'] ++ port.data ∧
      (between "http://" "/api/ingest/hr" serverURL).count ':' = 1 ∧
      host.data ≠ [] ∧ ':' ∉ host.data ∧
      port.data ≠ [] ∧ (∀ c ∈ port.data, c.isDigit = true) := by
  refine ⟨by decide, by decide, "192.168.1.100", "3000", rfl, rfl, ?_⟩
  decide

/-- C9: the sampling rate divides 1000, giving a 10 ms sampling period, and the
refractory period, the transmission interval and the connectivity-check interval
are 25, 100 and 3000 sampling periods, so every multiple of each interval is a
multiple of the sampling period. -/
theorem timing_constants_whole_periods :
    SAMPLE_RATE = 100 ∧ 1000 % SAMPLE_RATE = 0 ∧ SAMPLE_PERIOD_MS = 10 ∧
    SAMPLE_PERIOD_MS * SAMPLE_RATE = 1000 ∧
    REFRACTORY_PERIOD = 25 * SAMPLE_PERIOD_MS ∧
    (TRANSMISSION_INTERVAL : Int) = 100 * SAMPLE_PERIOD_MS ∧
    (WIFI_CHECK_INTERVAL : Int) = 3000 * SAMPLE_PERIOD_MS ∧
    (∀ k : Int, SAMPLE_PERIOD_MS ∣ k * REFRACTORY_PERIOD ∧
      SAMPLE_PERIOD_MS ∣ k * (TRANSMISSION_INTERVAL : Int) ∧
      SAMPLE_PERIOD_MS ∣ k * (WIFI_CHECK_INTERVAL : Int)) := by
  refine ⟨by decide, by decide, by decide, by decide, by decide, by decide, by decide,
    fun k => ⟨?_, ?_, ?_⟩⟩
  · exact Dvd.dvd.mul_left ⟨25, by decide⟩ k
  · exact Dvd.dvd.mul_left ⟨100, by decide⟩ k
  · exact Dvd.dvd.mul_left ⟨3000, by decide⟩ k

/-- C7: on every sample sequence whose timestamps never decrease (samples are
stamped in acquisition order by a monotonic clock), any two peaks the detector
registers are at least `REFRACTORY_PERIOD` ms apart, the later peak coming later in
the output.  Samples reaching the threshold at t = 0, 100 and 400 ms register
exactly the peaks at t = 0 and t = 400, both when they are the only samples and
when they are embedded in a 10 ms stream of below-threshold samples. -/
theorem peaks_respect_refractory :
    (∀ samples : List Sample, samples.Pairwise (fun a b => a.t ≤ b.t) →
      (detectPeaks samples).Pairwise
        (fun (p q : Nat) => (p : Int) + REFRACTORY_PERIOD ≤ (q : Int))) ∧
    (∀ v0 v1 v2 : Int, PEAK_THRESHOLD ≤ v0 → PEAK_THRESHOLD ≤ v1 → PEAK_THRESHOLD ≤ v2 →
      detectPeaks [⟨0, v0⟩, ⟨100, v1⟩, ⟨400, v2⟩] = [0, 400]) ∧
    detectPeaks scenarioStream = [0, 400] := by
  refine ⟨fun samples hs => (run_spaced samples Detector.init hs).1, ?_, by decide⟩
  intro v0 v1 v2 h0 h1 h2
  simp [detectPeaks, run, step, fire, arm, leaveRefractory, Detector.init, h0, h2,
    REFRACTORY_PERIOD]

/-- Witness for C7: the three-sample scenario has non-decreasing timestamps and
its registered peaks are spaced by the refractory period. -/
theorem peaks_respect_refractory_witness :
    List.Pairwise (fun a b : Sample => a.t ≤ b.t) [⟨0, 2000⟩, ⟨100, 2000⟩, ⟨400, 2000⟩] ∧
    (detectPeaks [⟨0, 2000⟩, ⟨100, 2000⟩, ⟨400, 2000⟩]).Pairwise
      (fun (p q : Nat) => (p : Int) + REFRACTORY_PERIOD ≤ (q : Int)) :=
  ⟨by decide, peaks_respect_refractory.1 _ (by decide)⟩

/-- C8: after any sequence of pushes the Interval Buffer of capacity `BUFFER_SIZE`
holds at most `BUFFER_SIZE` entries.  For every positive capacity the buffer never
holds more entries than its capacity, its contents are the most recent pushes in
insertion order, and a push into a full buffer removes exactly the oldest entry
and appends the new one behind the others.  With capacity 3, pushing 10, 20, 30,
40 leaves [20, 30, 40]. -/
theorem interval_buffer_ring_semantics :
    (∀ xs : List Nat,
      (pushAll (empty BUFFER_SIZE.toNat) xs).count ≤ BUFFER_SIZE.toNat ∧
      (contents (pushAll (empty BUFFER_SIZE.toNat) xs)).length ≤ BUFFER_SIZE.toNat) ∧
    (∀ (cap : Nat) (xs : List Nat) (x : Nat), 0 < cap →
      (contents (pushAll (empty cap) xs)).length ≤ cap ∧
      contents (pushAll (empty cap) xs) = xs.drop (xs.length - cap) ∧
      ((contents (pushAll (empty cap) xs)).length = cap →
        contents (push (pushAll (empty cap) xs) x)
          = (contents (pushAll (empty cap) xs)).tail ++ [x])) ∧
    contents (pushAll (empty 3) [10, 20, 30, 40]) = [20, 30, 40] := by
  have hB : 0 < BUFFER_SIZE.toNat := by decide
  refine ⟨fun xs => ?_, fun cap xs x hcap => ⟨?_, contents_pushAll_empty hcap xs, fun hfull => ?_⟩,
    by decide⟩
  · have hwf := wf_pushAll hB xs (wf_empty hB)
    exact ⟨hwf.2.2, by rw [length_contents]; exact hwf.2.2⟩
  · rw [length_contents]
    exact (wf_pushAll hcap xs (wf_empty hcap)).2.2
  · rw [length_contents] at hfull
    exact contents_push_of_full hcap (wf_pushAll hcap xs (wf_empty hcap)) hfull x

/-- Witness for C8: the full buffer of capacity 3 holding 10, 20, 30 evicts 10
when 40 is pushed. -/
theorem interval_buffer_ring_semantics_witness :
    0 < 3 ∧ (contents (pushAll (empty 3) [10, 20, 30])).length = 3 ∧
    contents (push (pushAll (empty 3) [10, 20, 30]) 40)
      = (contents (pushAll (empty 3) [10, 20, 30])).tail ++ [40] :=
  ⟨by decide, by decide,
    (interval_buffer_ring_semantics.2.1 3 [10, 20, 30] 40 (by decide)).2.2 (by decide)⟩

/-- C10: a buffer of `BUFFER_SIZE` entries filled at `SAMPLE_RATE` entries per
second spans 2000 ms, twice the transmission interval and at least one refractory
period; the products involved fit the machine types.  Hence the entries pushed
during one transmission interval (at most `SAMPLE_RATE * TRANSMISSION_INTERVAL /
1000` of them) are all still held, in order, at the end of that interval. -/
theorem buffer_spans_reporting_period :
    BUFFER_SIZE * 1000 ≥ SAMPLE_RATE * (TRANSMISSION_INTERVAL : Int) ∧
    BUFFER_SIZE * 1000 ≥ SAMPLE_RATE * REFRACTORY_PERIOD ∧
    BUFFER_SIZE * 1000 / SAMPLE_RATE = 2000 ∧
    BUFFER_SIZE * 1000 / SAMPLE_RATE = 2 * (TRANSMISSION_INTERVAL : Int) ∧
    fitsInt (BUFFER_SIZE * 1000) ∧ fitsInt (SAMPLE_RATE * REFRACTORY_PERIOD) ∧
    fitsULong (SAMPLE_RATE.toNat * TRANSMISSION_INTERVAL) ∧
    (∀ xs ys : List Nat,
      (ys.length : Int) * 1000 ≤ SAMPLE_RATE * (TRANSMISSION_INTERVAL : Int) →
      ∃ older : List Nat,
        contents (pushAll (empty BUFFER_SIZE.toNat) (xs ++ ys)) = older ++ ys) := by
  refine ⟨by decide, by decide, by decide, by decide, by decide, by decide, by decide, ?_⟩
  intro xs ys hys
  have hB : BUFFER_SIZE.toNat = 200 := by decide
  have hlen : ys.length ≤ 100 := by
    have h : SAMPLE_RATE * (TRANSMISSION_INTERVAL : Int) = 100000 := by decide
    rw [h] at hys
    omega
  rw [hB, contents_pushAll_empty (by decide) (xs ++ ys)]
  refine ⟨xs.drop (xs.length + ys.length - 200), ?_⟩
  rw [List.length_append, List.drop_append_of_le_length (by omega)]

/-- Witness for C10: 100 entries pushed after 200 earlier ones are all retained. -/
theorem buffer_spans_reporting_period_witness :
    (((List.range 100).length : Nat) : Int) * 1000
        ≤ SAMPLE_RATE * (TRANSMISSION_INTERVAL : Int) ∧
    ∃ older : List Nat,
      contents (pushAll (empty BUFFER_SIZE.toNat) (List.replicate 200 7 ++ List.range 100))
        = older ++ List.range 100 :=
  ⟨by decide,
    buffer_spans_reporting_period.2.2.2.2.2.2.2 (List.replicate 200 7) (List.range 100)
      (by decide)⟩

end CLES
